import Mathlib

/-!
Verification of the speaker-fusion and structured-minutes-extraction core of
the meeting-minutes-generator repository.

Modelling conventions (shallow embedding of the Python source):
* Python floats are modelled as `ℚ` (the code only adds, subtracts, compares,
  takes `min`/`max` and divides by constants, all of which are exact here).
* Python strings are modelled as `List Char`.
* A Python expression that may raise is modelled as an `Option`-valued
  function (`none` = an exception was raised at that point); a `try/except`
  block is modelled by matching on the `Option`.
* The external LLM backend call is modelled as an oracle parameter of type
  `List Char → Except Unit (List Char)` (`Except.error` = the call raised).
-/

namespace MMG

/-- `src/schemas.py`, `TranscriptSegment`.  Python's `end` is renamed to
`stop` (`end` is a Lean keyword).  The `text_not_empty` validator is not
needed by any property proved here. -/
structure TranscriptSegment where
  start : ℚ
  stop : ℚ
  text : List Char
  speaker : List Char
  confidence : ℚ
deriving DecidableEq, Repr

/-- A speaker turn: the `(start, end, speaker_label)` tuples produced by
`SpeakerDiarizer.diarize` (`src/diarization.py`). -/
structure SpeakerTurn where
  start : ℚ
  stop : ℚ
  label : List Char
deriving DecidableEq, Repr

/-- The overlap computation inside `SpeakerDiarizer._find_speaker`:
`overlap = max(0, min(end, sp_end) - max(start, sp_start))`. -/
def overlapQ (start stop : ℚ) (t : SpeakerTurn) : ℚ :=
  max 0 (min stop t.stop - max start t.start)

/-- The loop of `SpeakerDiarizer._find_speaker`: running maximum
`max_overlap` (initially `0.0`) and `best_speaker` (initially
`"Speaker 1"`); a turn wins only on strictly greater overlap. -/
def findSpeakerAux (start stop : ℚ) : List SpeakerTurn → ℚ → List Char → List Char
  | [], _, best => best
  | t :: ts, maxOv, best =>
    if overlapQ start stop t > maxOv then
      findSpeakerAux start stop ts (overlapQ start stop t) t.label
    else
      findSpeakerAux start stop ts maxOv best

/-- `SpeakerDiarizer._find_speaker` (`src/diarization.py:165-197`). -/
def findSpeaker (start stop : ℚ) (turns : List SpeakerTurn) : List Char :=
  findSpeakerAux start stop turns 0 ("Speaker 1".toList)

/-- `SpeakerDiarizer.apply_diarization` (`src/diarization.py:131-163`).
The Python loop copies each segment (`model_copy`) and sets `speaker`;
an empty turn list returns the input list itself. -/
def applyDiarization (segs : List TranscriptSegment) (turns : List SpeakerTurn) :
    List TranscriptSegment :=
  if turns = [] then segs
  else segs.map (fun seg => { seg with speaker := findSpeaker seg.start seg.stop turns })

/-- `f"Speaker {speaker_num}"` in `_fallback_diarization`. -/
def speakerLabel (n : ℕ) : List Char :=
  "Speaker ".toList ++ Nat.toDigits 10 n

/-- The `while current_time < duration` loop of
`SpeakerDiarizer._fallback_diarization` (`src/diarization.py:88-129`),
with `segment_length = 30.0` and speakers alternating `1, 2, 1, ...`.
The `fuel` argument is an embedding artifact bounding the number of loop
iterations; `fallbackDiarization` supplies enough fuel, as the theorem
about it establishes. -/
def fallbackAux (duration : ℚ) : ℚ → ℕ → ℕ → List SpeakerTurn
  | _, _, 0 => []
  | current, speakerNum, fuel + 1 =>
    if current < duration then
      let endTime := min (current + 30) duration
      ⟨current, endTime, speakerLabel speakerNum⟩ ::
        fallbackAux duration endTime (if speakerNum = 1 then 2 else 1) fuel
    else []

/-- `SpeakerDiarizer._fallback_diarization`, given the audio duration that
`librosa.get_duration` returned (the claim is conditioned on the duration
being determined). -/
def fallbackDiarization (duration : ℚ) : List SpeakerTurn :=
  fallbackAux duration 0 1 (⌈duration / 30⌉₊ + 1)

/-- Erase the one field `apply_diarization` is allowed to change; used to
state the frame property. -/
def clearSpeaker (seg : TranscriptSegment) : TranscriptSegment :=
  { seg with speaker := [] }

/-- Speaker assignment spec for `_find_speaker`: with no overlapping turn the
default `"Speaker 1"` is returned; with at least one overlapping turn the
result is the label of the first turn of maximal overlap (strict win over
every earlier turn, no later turn strictly better). -/
def findSpeakerSpec (s e : ℚ) (turns : List SpeakerTurn) : Prop :=
  ((∀ t ∈ turns, overlapQ s e t = 0) → findSpeaker s e turns = "Speaker 1".toList) ∧
  (∀ t₀ ∈ turns, 0 < overlapQ s e t₀ →
    ∃ pre t post, turns = pre ++ t :: post ∧
      findSpeaker s e turns = t.label ∧ 0 < overlapQ s e t ∧
      (∀ u ∈ pre, overlapQ s e u < overlapQ s e t) ∧
      (∀ u ∈ turns, overlapQ s e u ≤ overlapQ s e t))

/-- Combined statement of the C1 claim for a segment list and a turn list. -/
def applySpec (segs : List TranscriptSegment) (turns : List SpeakerTurn) : Prop :=
  applyDiarization segs turns
    = segs.map (fun seg => { seg with speaker := findSpeaker seg.start seg.stop turns }) ∧
  ∀ s e : ℚ, findSpeakerSpec s e turns

/-- Concrete segment list for the C1 witness. -/
def segsW : List TranscriptSegment := [⟨0, 10, "hi".toList, "Speaker 1".toList, 1⟩]

/-- Concrete turn list for the C1 witness. -/
def turnsW : List SpeakerTurn := [⟨0, 4, "A".toList⟩, ⟨4, 10, "B".toList⟩]

/-- Default turn used with `List.getD` in statements. -/
def dfltTurn : SpeakerTurn := ⟨0, 0, []⟩

/-- The turn generated by the fallback loop for 30-second window `i`. -/
def fallbackTurnAt (D : ℚ) (i : ℕ) : SpeakerTurn :=
  ⟨30 * i, min (30 * (i + 1)) D, speakerLabel (if i % 2 = 0 then 1 else 2)⟩

/-- Full statement of the fallback-diarization claim over a duration `D`. -/
def fallbackSpec (D : ℚ) : Prop :=
  (fallbackDiarization D).length = ⌈D / 30⌉₊ ∧
  ((fallbackDiarization D).getD 0 dfltTurn).start = 0 ∧
  ((fallbackDiarization D).getD (⌈D / 30⌉₊ - 1) dfltTurn).stop = D ∧
  (∀ i, i + 1 < ⌈D / 30⌉₊ →
    ((fallbackDiarization D).getD i dfltTurn).stop
      = ((fallbackDiarization D).getD (i + 1) dfltTurn).start) ∧
  (∀ i, i + 1 < ⌈D / 30⌉₊ →
    ((fallbackDiarization D).getD i dfltTurn).stop
      - ((fallbackDiarization D).getD i dfltTurn).start = 30) ∧
  (∀ i, i < ⌈D / 30⌉₊ →
    ((fallbackDiarization D).getD i dfltTurn).start
      < ((fallbackDiarization D).getD i dfltTurn).stop) ∧
  (∀ i, i < ⌈D / 30⌉₊ →
    ((fallbackDiarization D).getD i dfltTurn).label
      = (if i % 2 = 0 then "Speaker 1".toList else "Speaker 2".toList))

lemma findSpeakerAux_all_le (s e : ℚ) :
    ∀ (ts : List SpeakerTurn) (m : ℚ) (b : List Char),
      (∀ t ∈ ts, overlapQ s e t ≤ m) → findSpeakerAux s e ts m b = b := by
  intro ts
  induction ts with
  | nil => intro m b _; rfl
  | cons t ts ih =>
    intro m b h
    simp only [findSpeakerAux, if_neg (not_lt.mpr (h t (List.mem_cons_self t ts)))]
    exact ih m b (fun u hu => h u (List.mem_cons_of_mem t hu))

lemma findSpeakerAux_argmax (s e : ℚ) :
    ∀ (ts : List SpeakerTurn) (m : ℚ) (b : List Char),
      (∃ t ∈ ts, m < overlapQ s e t) →
      ∃ pre t post, ts = pre ++ t :: post ∧
        findSpeakerAux s e ts m b = t.label ∧ m < overlapQ s e t ∧
        (∀ u ∈ pre, overlapQ s e u < overlapQ s e t) ∧
        (∀ u ∈ ts, overlapQ s e u ≤ overlapQ s e t) := by
  intro ts
  induction ts with
  | nil => rintro m b ⟨t, ht, -⟩; exact absurd ht (List.not_mem_nil t)
  | cons t ts ih =>
    intro m b hex
    by_cases h1 : m < overlapQ s e t
    · by_cases h2 : ∃ u ∈ ts, overlapQ s e t < overlapQ s e u
      · obtain ⟨pre, w, post, hsplit, heq, hlt, hpre, hall⟩ :=
          ih (overlapQ s e t) t.label h2
        refine ⟨t :: pre, w, post, by rw [hsplit]; rfl, ?_, lt_trans h1 hlt, ?_, ?_⟩
        · simpa only [findSpeakerAux, if_pos h1] using heq
        · rintro u hu
          rcases List.mem_cons.mp hu with rfl | hu
          · exact hlt
          · exact hpre u hu
        · rintro u hu
          rcases List.mem_cons.mp hu with rfl | hu
          · exact le_of_lt hlt
          · exact hall u hu
      · push_neg at h2
        refine ⟨[], t, ts, rfl, ?_, h1, by simp, ?_⟩
        · simp only [findSpeakerAux, if_pos h1]
          exact findSpeakerAux_all_le s e ts _ _ h2
        · rintro u hu
          rcases List.mem_cons.mp hu with rfl | hu
          · exact le_refl _
          · exact h2 u hu
    · obtain ⟨t', ht', hm⟩ := hex
      have ht'ts : t' ∈ ts := by
        rcases List.mem_cons.mp ht' with rfl | h
        · exact absurd hm h1
        · exact h
      obtain ⟨pre, w, post, hsplit, heq, hlt, hpre, hall⟩ := ih m b ⟨t', ht'ts, hm⟩
      refine ⟨t :: pre, w, post, by rw [hsplit]; rfl, ?_, hlt, ?_, ?_⟩
      · simpa only [findSpeakerAux, if_neg h1] using heq
      · rintro u hu
        rcases List.mem_cons.mp hu with rfl | hu
        · exact lt_of_le_of_lt (not_lt.mp h1) hlt
        · exact hpre u hu
      · rintro u hu
        rcases List.mem_cons.mp hu with rfl | hu
        · exact le_of_lt (lt_of_le_of_lt (not_lt.mp h1) hlt)
        · exact hall u hu

/-- C1: with a non-empty turn list, `apply_diarization` labels every segment
with `_find_speaker`, which returns the label of the turn of strictly
greatest overlap `max(0, min(seg.end, turn.end) - max(seg.start, turn.start))`
(first such turn on ties), and `"Speaker 1"` when no turn overlaps. -/
theorem C1_find_speaker (segs : List TranscriptSegment) (turns : List SpeakerTurn)
    (hne : turns ≠ []) : applySpec segs turns := by
  constructor
  · simp [applyDiarization, hne]
  · intro s e
    constructor
    · intro hall
      exact findSpeakerAux_all_le s e turns 0 _ (fun t ht => le_of_eq (hall t ht))
    · intro t₀ ht₀ hpos
      obtain ⟨pre, t, post, hsplit, heq, hm, hpre, hall⟩ :=
        findSpeakerAux_argmax s e turns 0 ("Speaker 1".toList) ⟨t₀, ht₀, hpos⟩
      exact ⟨pre, t, post, hsplit, heq, hm, hpre, hall⟩

theorem C1_find_speaker_witness : turnsW ≠ [] ∧ applySpec segsW turnsW :=
  ⟨by decide, C1_find_speaker segsW turnsW (by decide)⟩

/-- C2: `apply_diarization` preserves length and order and changes at most
the `speaker` field of each segment; it is a pure function of its inputs
(the Python code builds fresh `model_copy` objects, never mutating the
caller's list, which the Lean embedding reflects by totality/purity). -/
theorem C2_apply_frame (segs : List TranscriptSegment) (turns : List SpeakerTurn) :
    (applyDiarization segs turns).length = segs.length ∧
    (applyDiarization segs turns).map clearSpeaker = segs.map clearSpeaker := by
  by_cases h : turns = []
  · simp [applyDiarization, h]
  · refine ⟨by simp [applyDiarization, h], ?_⟩
    simp only [applyDiarization, if_neg h, List.map_map]
    rfl

/-- C8: with an empty turn list `apply_diarization` returns its input
unchanged. -/
theorem C8_apply_empty_turns (segs : List TranscriptSegment) :
    applyDiarization segs [] = segs := by
  simp [applyDiarization]

lemma fallbackAux_at_end (D : ℚ) (sp : ℕ) : ∀ f, fallbackAux D D sp f = [] := by
  intro f
  cases f with
  | zero => rfl
  | succ f => simp [fallbackAux]

lemma fallbackAux_spec (D : ℚ) :
    ∀ (fuel k : ℕ), ⌈D / 30⌉₊ ≤ k + fuel →
      fallbackAux D (30 * (k : ℚ)) (if k % 2 = 0 then 1 else 2) fuel
        = (List.range' k (⌈D / 30⌉₊ - k)).map (fallbackTurnAt D) := by
  intro fuel
  induction fuel with
  | zero =>
    intro k hk
    rw [Nat.sub_eq_zero_of_le (by omega)]
    rfl
  | succ fuel ih =>
    intro k hk
    by_cases hlt : 30 * (k : ℚ) < D
    · have hkN : k < ⌈D / 30⌉₊ := by
        rw [Nat.lt_ceil, lt_div_iff (by norm_num : (0 : ℚ) < 30)]
        linarith
      simp only [fallbackAux, if_pos hlt]
      have hsp : (if (if k % 2 = 0 then 1 else 2) = 1 then 2 else 1)
          = if (k + 1) % 2 = 0 then 1 else 2 := by
        rcases Nat.mod_two_eq_zero_or_one k with h2 | h2 <;>
          simp [h2, Nat.add_mod, Nat.succ_mod_two_eq_zero_iff, Nat.succ_mod_two_eq_one_iff] <;>
          omega
      have hrange : List.range' k (⌈D / 30⌉₊ - k)
          = k :: List.range' (k + 1) (⌈D / 30⌉₊ - (k + 1)) := by
        have : ⌈D / 30⌉₊ - k = (⌈D / 30⌉₊ - (k + 1)) + 1 := by omega
        rw [this, List.range'_succ]
      rw [hrange, List.map_cons]
      have hhead : fallbackTurnAt D k
          = ⟨30 * (k : ℚ), min (30 * (k : ℚ) + 30) D,
             speakerLabel (if k % 2 = 0 then 1 else 2)⟩ := by
        simp only [fallbackTurnAt]
        congr 2
        push_cast
        ring
      rw [hhead]
      by_cases hle : 30 * ((k : ℚ) + 1) ≤ D
      · have hmin : min (30 * (k : ℚ) + 30) D = 30 * ((k + 1 : ℕ) : ℚ) := by
          rw [min_eq_left (by linarith)]
          push_cast
          ring
        congr 1
        rw [hmin, hsp]
        exact ih (k + 1) (by omega)
      · push_neg at hle
        have hmin : min (30 * (k : ℚ) + 30) D = D := min_eq_right (by linarith)
        have hN : ⌈D / 30⌉₊ = k + 1 := by
          refine le_antisymm ?_ hkN
          rw [Nat.ceil_le, div_le_iff (by norm_num : (0 : ℚ) < 30)]
          push_cast
          linarith
        rw [hmin, fallbackAux_at_end, hN]
        simp only [Nat.sub_self, List.range'_zero, List.map_nil]
    · push_neg at hlt
      have hN : ⌈D / 30⌉₊ ≤ k := by
        rw [Nat.ceil_le, div_le_iff (by norm_num : (0 : ℚ) < 30)]
        linarith
      rw [Nat.sub_eq_zero_of_le hN]
      simp [fallbackAux, not_lt.mpr hlt]

lemma fallbackDiarization_eq (D : ℚ) :
    fallbackDiarization D = (List.range ⌈D / 30⌉₊).map (fallbackTurnAt D) := by
  have h := fallbackAux_spec D (⌈D / 30⌉₊ + 1) 0 (by omega)
  norm_num at h
  rw [fallbackDiarization, h, List.range_eq_range']

lemma fallback_getD (D : ℚ) (i : ℕ) (h : i < ⌈D / 30⌉₊) :
    (fallbackDiarization D).getD i dfltTurn = fallbackTurnAt D i := by
  rw [fallbackDiarization_eq, List.getD_eq_getElem?_getD, List.getElem?_map,
    List.getElem?_range h]
  rfl

/-- C3: for a determinable duration `D > 0` the fallback produces exactly
`⌈D/30⌉` turns partitioning `[0, D]` with no gaps or overlaps, each 30 s
long except possibly the last whose end is exactly `D`, with labels
alternating `"Speaker 1"`, `"Speaker 2"`, ... from the first window. -/
theorem C3_fallback (D : ℚ) (hD : 0 < D) : fallbackSpec D := by
  have hN : 0 < ⌈D / 30⌉₊ := Nat.ceil_pos.mpr (by positivity)
  have hcast : ∀ i : ℕ, i < ⌈D / 30⌉₊ → 30 * (i : ℚ) < D := by
    intro i hi
    rw [Nat.lt_ceil, lt_div_iff (by norm_num : (0 : ℚ) < 30)] at hi
    linarith
  have hstep : ∀ i : ℕ, i + 1 < ⌈D / 30⌉₊ → 30 * ((i : ℚ) + 1) ≤ D := by
    intro i hi
    have := hcast (i + 1) (by omega)
    push_cast at this
    linarith
  refine ⟨?_, ?_, ?_, ?_, ?_, ?_, ?_⟩
  · rw [fallbackDiarization_eq]; simp
  · rw [fallback_getD D 0 hN]
    simp [fallbackTurnAt]
  · rw [fallback_getD D (⌈D / 30⌉₊ - 1) (by omega)]
    have hD30 : D ≤ 30 * ((⌈D / 30⌉₊ : ℚ) - 1 + 1) := by
      have := Nat.le_ceil (D / 30)
      rw [div_le_iff (by norm_num : (0 : ℚ) < 30)] at this
      linarith
    simp only [fallbackTurnAt]
    rw [min_eq_right]
    have h1 : ((⌈D / 30⌉₊ - 1 : ℕ) : ℚ) = (⌈D / 30⌉₊ : ℚ) - 1 := by
      push_cast [Nat.cast_sub hN]
      ring
    rw [h1]
    exact hD30
  · intro i hi
    rw [fallback_getD D i (by omega), fallback_getD D (i + 1) (by omega)]
    simp only [fallbackTurnAt]
    rw [min_eq_left (by have := hstep i hi; push_cast; linarith)]
    push_cast
    ring
  · intro i hi
    rw [fallback_getD D i (by omega)]
    simp only [fallbackTurnAt]
    rw [min_eq_left (by have := hstep i hi; push_cast; linarith)]
    ring
  · intro i hi
    rw [fallback_getD D i hi]
    simp only [fallbackTurnAt]
    have h30 := hcast i hi
    exact lt_min (by linarith) h30
  · intro i hi
    rw [fallback_getD D i hi]
    simp only [fallbackTurnAt]
    rcases Nat.mod_two_eq_zero_or_one i with h2 | h2 <;> simp [h2] <;> decide

theorem C3_fallback_witness : (0 : ℚ) < 45 ∧ fallbackSpec 45 :=
  ⟨by norm_num, C3_fallback 45 (by norm_num)⟩

/-- Python `int(·)` on a float value: truncation toward zero. -/
def pyInt (q : ℚ) : ℤ := q.num.tdiv q.den

/-- Python `%` on floats: `a % b = a - b * (a // b)` with floor division. -/
def pyMod (a b : ℚ) : ℚ := a - b * ⌊a / b⌋

/-- The f-string `f"{n:02d}"`: decimal rendering zero-padded to width 2
(a sign counts toward the width). -/
def format02 (n : ℤ) : List Char :=
  if n < 0 then '-' :: Nat.toDigits 10 n.natAbs
  else
    let ds := Nat.toDigits 10 n.toNat
    List.replicate (2 - ds.length) '0' ++ ds

/-- `MeetingSummarizer._format_timestamp` (`src/summarizer.py:155-166`):
`minutes = int(seconds // 60)`, `secs = int(seconds % 60)`, rendered as
`f"{minutes:02d}:{secs:02d}"`.  (`int` applied to the integer-valued float
`seconds // 60` is exactly the floor.) -/
def formatTimestamp (seconds : ℚ) : List Char :=
  let minutes : ℤ := ⌊seconds / 60⌋
  let secs : ℤ := pyInt (pyMod seconds 60)
  format02 minutes ++ ':' :: format02 secs

lemma pyInt_eq_floor (q : ℚ) (h : 0 ≤ q) : pyInt q = ⌊q⌋ := by
  rw [pyInt, Rat.floor_def]
  exact Int.tdiv_eq_ediv (Rat.num_nonneg.mpr h) (by positivity)

lemma pyMod_sixty_nonneg (a : ℚ) : 0 ≤ pyMod a 60 := by
  have h : pyMod a 60 = 60 * Int.fract (a / 60) := by
    rw [pyMod, Int.fract]
    field_simp
  rw [h]
  exact mul_nonneg (by norm_num) (Int.fract_nonneg _)

lemma floor_div_sixty (s : ℚ) : ⌊s / 60⌋ = ⌊s⌋ / 60 := by
  have hr0 : (0 : ℤ) ≤ ⌊s⌋ % 60 := Int.emod_nonneg _ (by norm_num)
  have hr60 : ⌊s⌋ % 60 < 60 := Int.emod_lt_of_pos _ (by norm_num)
  have hsplit : ⌊s⌋ = 60 * (⌊s⌋ / 60) + ⌊s⌋ % 60 := (Int.ediv_add_emod ⌊s⌋ 60).symm
  have hfl : (⌊s⌋ : ℚ) ≤ s := Int.floor_le s
  have hfu : s < (⌊s⌋ : ℚ) + 1 := Int.lt_floor_add_one s
  have hr0q : (0 : ℚ) ≤ ((⌊s⌋ % 60 : ℤ) : ℚ) := by exact_mod_cast hr0
  have hr60q : ((⌊s⌋ % 60 : ℤ) : ℚ) < 60 := by exact_mod_cast hr60
  have hr59q : ((⌊s⌋ % 60 : ℤ) : ℚ) ≤ 59 := by
    have : ⌊s⌋ % 60 ≤ 59 := by omega
    exact_mod_cast this
  rw [Int.floor_eq_iff]
  constructor
  · rw [le_div_iff (by norm_num : (0 : ℚ) < 60)]
    have : ((60 * (⌊s⌋ / 60) + ⌊s⌋ % 60 : ℤ) : ℚ) ≤ s := by rw [← hsplit]; exact hfl
    push_cast at this ⊢
    linarith
  · rw [div_lt_iff (by norm_num : (0 : ℚ) < 60)]
    have : s < ((60 * (⌊s⌋ / 60) + ⌊s⌋ % 60 : ℤ) : ℚ) + 1 := by rw [← hsplit]; exact hfu
    push_cast at this ⊢
    linarith

lemma floor_pyMod_sixty (s : ℚ) : ⌊pyMod s 60⌋ = ⌊s⌋ % 60 := by
  have hcast : s - 60 * (⌊s / 60⌋ : ℚ) = s - ((60 * ⌊s / 60⌋ : ℤ) : ℚ) := by
    push_cast
    ring
  rw [pyMod, hcast, Int.floor_sub_int, floor_div_sixty, Int.emod_def]

/-- Full statement of the C9 claim for a number of seconds `s`. -/
def timestampSpec (s : ℚ) : Prop :=
  formatTimestamp s = format02 ⌊s / 60⌋ ++ ':' :: format02 (⌊s⌋ % 60) ∧
  0 ≤ ⌊s⌋ % 60 ∧ ⌊s⌋ % 60 < 60 ∧
  formatTimestamp 0 = "00:00".toList ∧
  formatTimestamp 65 = "01:05".toList ∧
  formatTimestamp 3665 = "61:05".toList

/-- C9: for `s ≥ 0` the timestamp is `floor(s/60)` minutes and
`floor(s mod 60) = floor(s) mod 60` seconds, each zero-padded to two
digits, colon-separated, minutes unbounded; `0 ↦ "00:00"`,
`65 ↦ "01:05"`, `3665 ↦ "61:05"`. -/
theorem C9_format_timestamp (s : ℚ) (h : 0 ≤ s) : timestampSpec s := by
  have hex0 : formatTimestamp 0 = "00:00".toList := by
    have h1 : ⌊(0 : ℚ) / 60⌋ = 0 := by norm_num
    have h2 : pyMod (0 : ℚ) 60 = 0 := by simp [pyMod]
    simp only [formatTimestamp, h1, h2]
    decide
  have hex65 : formatTimestamp 65 = "01:05".toList := by
    have h1 : ⌊(65 : ℚ) / 60⌋ = 1 := by norm_num [Int.floor_eq_iff]
    have h2 : pyMod (65 : ℚ) 60 = 5 := by rw [pyMod, h1]; norm_num
    simp only [formatTimestamp, h1, h2]
    decide
  have hex3665 : formatTimestamp 3665 = "61:05".toList := by
    have h1 : ⌊(3665 : ℚ) / 60⌋ = 61 := by norm_num [Int.floor_eq_iff]
    have h2 : pyMod (3665 : ℚ) 60 = 5 := by rw [pyMod, h1]; norm_num
    simp only [formatTimestamp, h1, h2]
    decide
  refine ⟨?_, Int.emod_nonneg _ (by norm_num), Int.emod_lt_of_pos _ (by norm_num),
    hex0, hex65, hex3665⟩
  simp only [formatTimestamp]
  rw [pyInt_eq_floor _ (pyMod_sixty_nonneg s), floor_pyMod_sixty]

theorem C9_format_timestamp_witness : (0 : ℚ) ≤ 65 ∧ timestampSpec 65 :=
  ⟨by norm_num, C9_format_timestamp 65 (by norm_num)⟩

/-- JSON values as produced by Python's `json.loads`.  Numbers are kept as
exact rationals (no arithmetic is ever done on them downstream); object
member lists keep source order. -/
inductive Json where
  | null : Json
  | bool (b : Bool) : Json
  | num (q : ℚ) : Json
  | str (s : List Char) : Json
  | arr (items : List Json) : Json
  | obj (members : List (List Char × Json)) : Json

/-- Python `dict.get(key)`: with duplicate keys in the source text the later
binding overwrites the earlier one, so lookup scans from the end. -/
def objGet (members : List (List Char × Json)) (key : List Char) : Option Json :=
  (members.reverse.find? (fun kv => kv.1 == key)).map (fun kv => kv.2)

/-- JSON whitespace accepted by `json.loads` between tokens. -/
def jsonWs (c : Char) : Bool :=
  c == ' ' || c == '\t' || c == '\n' || c == '\r'

def skipWs (s : List Char) : List Char := s.dropWhile jsonWs

/-- Single-character escapes inside JSON strings. -/
def escChar : Char → Option Char
  | '"' => some '"'
  | '/' => some '/'
  | '\\' => some '\\'
  | 'n' => some '\n'
  | 't' => some '\t'
  | 'r' => some '\r'
  | 'b' => some (Char.ofNat 8)
  | 'f' => some (Char.ofNat 12)
  | _ => none

/-- Value of one hexadecimal digit (code points 48-57, 97-102, 65-70). -/
def hexVal (c : Char) : Option ℕ :=
  let n := c.toNat
  if 48 ≤ n ∧ n ≤ 57 then some (n - 48)
  else if 97 ≤ n ∧ n ≤ 102 then some (n - 87)
  else if 65 ≤ n ∧ n ≤ 70 then some (n - 55)
  else none

/-- Body of a JSON string after the opening quote, up to the closing quote.
`json.loads` in its default strict mode rejects raw control characters. -/
def parseStringBody : List Char → Option (List Char × List Char)
  | [] => none
  | '"' :: rest => some ([], rest)
  | '\\' :: 'u' :: h1 :: h2 :: h3 :: h4 :: rest => do
    let a ← hexVal h1
    let b ← hexVal h2
    let c ← hexVal h3
    let d ← hexVal h4
    let (cs, r) ← parseStringBody rest
    pure (Char.ofNat (((a * 16 + b) * 16 + c) * 16 + d) :: cs, r)
  | '\\' :: c :: rest => do
    let e ← escChar c
    let (cs, r) ← parseStringBody rest
    pure (e :: cs, r)
  | c :: rest =>
    if c.toNat < 32 then none
    else do
      let (cs, r) ← parseStringBody rest
      pure (c :: cs, r)

def digitsToNat (ds : List Char) : ℕ :=
  ds.foldl (fun a c => a * 10 + (c.toNat - '0'.toNat)) 0

/-- Exponent part of a JSON number; `some (0, s)` when `s` carries none. -/
def parseExpPart (s : List Char) : Option (ℤ × List Char) :=
  match s with
  | 'e' :: r => parseExpAfterE r
  | 'E' :: r => parseExpAfterE r
  | _ => some (0, s)
where
  parseExpAfterE (r : List Char) : Option (ℤ × List Char) :=
    match r with
    | '+' :: r2 =>
      let p := r2.span Char.isDigit
      if p.1.isEmpty then none else some ((digitsToNat p.1 : ℤ), p.2)
    | '-' :: r2 =>
      let p := r2.span Char.isDigit
      if p.1.isEmpty then none else some (-(digitsToNat p.1 : ℤ), p.2)
    | _ =>
      let p := r.span Char.isDigit
      if p.1.isEmpty then none else some ((digitsToNat p.1 : ℤ), p.2)

/-- A JSON number token (`-?int(.frac)?([eE][+-]?digits)?`, no leading
zeros). -/
def parseNumberTok (s : List Char) : Option (Json × List Char) :=
  let sgn : Bool × List Char :=
    match s with
    | '-' :: r => (true, r)
    | _ => (false, s)
  let ip := sgn.2.span Char.isDigit
  if ip.1.isEmpty then none
  else if ip.1.length > 1 && (ip.1.headD '0' == '0') then none
  else
    let fr : Option (List Char × List Char) :=
      match ip.2 with
      | '.' :: rf =>
        let p := rf.span Char.isDigit
        if p.1.isEmpty then none else some p
      | _ => some ([], ip.2)
    match fr with
    | none => none
    | some (fds, r2) =>
      match parseExpPart r2 with
      | none => none
      | some (ex, r3) =>
        let base : ℚ :=
          (digitsToNat ip.1 : ℚ) + (digitsToNat fds : ℚ) / (10 : ℚ) ^ fds.length
        let v : ℚ := (if sgn.1 then -base else base) * (10 : ℚ) ^ ex
        some (Json.num v, r3)

mutual

/-- One JSON value (recursive descent with a fuel bound on the total number
of recursive calls; `jsonLoads` supplies enough fuel for its input). -/
def parseValue : ℕ → List Char → Option (Json × List Char)
  | 0, _ => none
  | fuel + 1, s =>
    match skipWs s with
    | [] => none
    | c :: rest =>
      if c == 'n' then
        if rest.take 3 == "ull".toList then some (Json.null, rest.drop 3) else none
      else if c == 't' then
        if rest.take 3 == "rue".toList then some (Json.bool true, rest.drop 3) else none
      else if c == 'f' then
        if rest.take 4 == "alse".toList then some (Json.bool false, rest.drop 4) else none
      else if c == '"' then
        (parseStringBody rest).map (fun p => (Json.str p.1, p.2))
      else if c == '[' then
        (parseElemsFirst fuel rest).map (fun p => (Json.arr p.1, p.2))
      else if c == '\x7b' then
        (parseMembersFirst fuel rest).map (fun p => (Json.obj p.1, p.2))
      else parseNumberTok (c :: rest)

def parseElemsFirst : ℕ → List Char → Option (List Json × List Char)
  | 0, _ => none
  | fuel + 1, s =>
    match skipWs s with
    | ']' :: r => some ([], r)
    | _ => do
      let (v, r1) ← parseValue fuel s
      let (vs, r2) ← parseElemsRest fuel r1
      pure (v :: vs, r2)

def parseElemsRest : ℕ → List Char → Option (List Json × List Char)
  | 0, _ => none
  | fuel + 1, s =>
    match skipWs s with
    | ']' :: r => some ([], r)
    | ',' :: r => do
      let (v, r1) ← parseValue fuel r
      let (vs, r2) ← parseElemsRest fuel r1
      pure (v :: vs, r2)
    | _ => none

def parseMember : ℕ → List Char → Option ((List Char × Json) × List Char)
  | 0, _ => none
  | fuel + 1, s =>
    match skipWs s with
    | '"' :: r => do
      let (k, r1) ← parseStringBody r
      match skipWs r1 with
      | ':' :: r2 => do
        let (v, r3) ← parseValue fuel r2
        pure ((k, v), r3)
      | _ => none
    | _ => none

def parseMembersFirst : ℕ → List Char → Option (List (List Char × Json) × List Char)
  | 0, _ => none
  | fuel + 1, s =>
    match skipWs s with
    | '\x7d' :: r => some ([], r)
    | _ => do
      let (kv, r1) ← parseMember fuel s
      let (kvs, r2) ← parseMembersRest fuel r1
      pure (kv :: kvs, r2)

def parseMembersRest : ℕ → List Char → Option (List (List Char × Json) × List Char)
  | 0, _ => none
  | fuel + 1, s =>
    match skipWs s with
    | '\x7d' :: r => some ([], r)
    | ',' :: r => do
      let (kv, r1) ← parseMember fuel r
      let (kvs, r2) ← parseMembersRest fuel r1
      pure (kv :: kvs, r2)
    | _ => none

end

/-- Python `json.loads`: parse one value and require only whitespace after
it. -/
def jsonLoads (s : List Char) : Option Json :=
  match parseValue (4 * s.length + 8) s with
  | some (v, r) => if skipWs r = [] then some v else none
  | none => none

/-- `src/schemas.py`, `ActionItem` (pydantic model). -/
structure ActionItem where
  owner : List Char
  task : List Char
  due_date : Option (List Char)
  confidence : ℚ
  status : List Char
deriving DecidableEq, Repr

/-- `src/schemas.py`, `MeetingMinutes` (pydantic model). -/
structure MeetingMinutes where
  summary : List (List Char)
  decisions : List (List Char)
  action_items : List ActionItem
  risks : List (List Char)
  notes : Option (List Char)
deriving DecidableEq, Repr

/-- `MeetingMinutes()` with all defaults: the "empty minutes" record. -/
def MeetingMinutes.empty : MeetingMinutes := ⟨[], [], [], [], none⟩

/-- The pydantic `summary_max_length` validator (`src/schemas.py:40-44`),
applied whenever a `MeetingMinutes` is constructed. -/
def validateSummaryField (v : List (List Char)) : List (List Char) :=
  if v.length > 8 then v.take 8 else v

/-- pydantic coercion into a `str` field: only a JSON string is accepted. -/
def asStr : Json → Option (List Char)
  | Json.str s => some s
  | _ => none

/-- pydantic coercion into a `List[str]` field. -/
def asStrList : Json → Option (List (List Char))
  | Json.arr xs => xs.mapM asStr
  | _ => none

/-- pydantic coercion into an `Optional[str]` field. -/
def asOptStr : Json → Option (Option (List Char))
  | Json.null => some none
  | Json.str s => some (some s)
  | _ => none

/-- pydantic coercion into the `confidence` field
(`float`, `ge=0.0, le=1.0`). -/
def asConfidence : Json → Option ℚ
  | Json.num q => if 0 ≤ q ∧ q ≤ 1 then some q else none
  | _ => none

/-- `ActionItem(**item)`: `owner` and `task` are required `str` fields;
`due_date` defaults to `None`, `confidence` to `1.0`, `status` to
`"Open"`; extra keys are ignored; `none` models a raised
`ValidationError`. -/
def mkActionItemDue (fs : List (List Char × Json)) : Option (Option (List Char)) :=
  match objGet fs ("due_date".toList) with
  | none => some none
  | some v => asOptStr v

def mkActionItemConf (fs : List (List Char × Json)) : Option ℚ :=
  match objGet fs ("confidence".toList) with
  | none => some 1
  | some v => asConfidence v

def mkActionItemStatus (fs : List (List Char × Json)) : Option (List Char) :=
  match objGet fs ("status".toList) with
  | none => some ("Open".toList)
  | some v => asStr v

def mkActionItem (j : Json) : Option ActionItem :=
  match j with
  | Json.obj fs =>
    match (objGet fs ("owner".toList)).bind asStr, (objGet fs ("task".toList)).bind asStr with
    | some owner, some task =>
      match mkActionItemDue fs, mkActionItemConf fs, mkActionItemStatus fs with
      | some due, some conf, some status => some ⟨owner, task, due, conf, status⟩
      | _, _, _ => none
    | _, _ => none
  | _ => none

/-- The list comprehension
`[ActionItem(**item) for item in data.get("action_items", [])]`. -/
def buildActionItems : List Json → Option (List ActionItem)
  | [] => some []
  | j :: js =>
    match mkActionItem j with
    | none => none
    | some it =>
      match buildActionItems js with
      | none => none
      | some rest => some (it :: rest)

/-- `data.get(key, [])` coerced through a pydantic `List[str]` field. -/
def getStrListField (fs : List (List Char × Json)) (key : List Char) :
    Option (List (List Char)) :=
  match objGet fs key with
  | none => some []
  | some v => asStrList v

/-- `data.get("notes")` coerced through `Optional[str]`. -/
def getNotesField (fs : List (List Char × Json)) : Option (Option (List Char)) :=
  match objGet fs "notes".toList with
  | none => some none
  | some v => asOptStr v

/-- `data.get("action_items", [])` as the list the comprehension iterates
over (a non-list value makes the iteration raise). -/
def getItemsField (fs : List (List Char × Json)) : Option (List Json) :=
  match objGet fs "action_items".toList with
  | none => some []
  | some (Json.arr xs) => some xs
  | some _ => none

/-- Shared body of `_parse_response` (which passes `notes=data.get("notes")`)
and `_extract_json_from_markdown` (which leaves `notes` at its default
`None`): build the `ActionItem`s, then the `MeetingMinutes`; `none` models
any exception raised while doing so. -/
def buildFromData (includeNotes : Bool) (fs : List (List Char × Json)) :
    Option MeetingMinutes :=
  match getItemsField fs with
  | none => none
  | some itemsJ =>
    match buildActionItems itemsJ with
    | none => none
    | some items =>
      match getStrListField fs ("summary".toList) with
      | none => none
      | some summary =>
        match getStrListField fs ("decisions".toList) with
        | none => none
        | some decisions =>
          match getStrListField fs ("risks".toList) with
          | none => none
          | some risks =>
            match (if includeNotes then getNotesField fs else some none) with
            | none => none
            | some notes =>
              some ⟨validateSummaryField summary, decisions, items, risks, notes⟩

/-- `MeetingSummarizer._validate_minutes` (`src/summarizer.py:283-300`):
truncate `summary` past 8 entries, then raise `ValueError` (modelled as
`none`) when some action item has a falsy (empty) `owner` or `task`. -/
def validateMinutes (m : MeetingMinutes) : Option MeetingMinutes :=
  let m' : MeetingMinutes :=
    { m with summary := if m.summary.length > 8 then m.summary.take 8 else m.summary }
  if m'.action_items.any (fun it => it.owner.isEmpty || it.task.isEmpty) then none
  else some m'

/-- First index at which `pat` occurs in `s`. -/
def findSub : List Char → List Char → Option ℕ
  | s, pat =>
    if pat.isPrefixOf s then some 0
    else
      match s with
      | [] => none
      | _ :: t => (findSub t pat).map (· + 1)

/-- Python `str.find(sub, start)`: first index `≥ start`, `-1` if absent. -/
def pyFind (s pat : List Char) (start : ℕ) : ℤ :=
  match findSub (s.drop start) pat with
  | some i => ((start + i : ℕ) : ℤ)
  | none => -1

/-- Python `sub in s`. -/
def pyContains (s pat : List Char) : Bool := (findSub s pat).isSome

/-- Index clamping of Python slicing (negative indices count from the
end). -/
def pyClamp (n : ℕ) (i : ℤ) : ℕ :=
  if i < 0 then ((n : ℤ) + i).toNat else min i.toNat n

/-- Python slice `s[a:b]`. -/
def pySlice (s : List Char) (a b : ℤ) : List Char :=
  (s.take (pyClamp s.length b)).drop (pyClamp s.length a)

/-- The whitespace removed by Python `str.strip()` (ASCII part). -/
def pyWs (c : Char) : Bool :=
  c == ' ' || c == '\t' || c == '\n' || c == '\r' || c == '\x0b' || c == '\x0c'

/-- Python `str.strip()`. -/
def stripList (s : List Char) : List Char :=
  ((s.dropWhile pyWs).reverse.dropWhile pyWs).reverse

/-- The fenced-code-block selection of `_extract_json_from_markdown`
(`src/summarizer.py:253-264`): the string handed to the retry
`json.loads`. -/
def extractJsonStr (response : List Char) : List Char :=
  if pyContains response ("```json".toList) then
    stripList (pySlice response (pyFind response ("```json".toList) 0 + 7)
      (pyFind response ("```".toList) ((pyFind response ("```json".toList) 0 + 7).toNat)))
  else if pyContains response ("```".toList) then
    stripList (pySlice response (pyFind response ("```".toList) 0 + 3)
      (pyFind response ("```".toList) ((pyFind response ("```".toList) 0 + 3).toNat)))
  else response

/-- `MeetingSummarizer._extract_json_from_markdown`
(`src/summarizer.py:244-281`).  Unlike the direct path it does not pass
`notes` and does not call `_validate_minutes`; every exception is caught
and yields the empty record. -/
def extractJsonFromMarkdown (response : List Char) : MeetingMinutes :=
  match jsonLoads (extractJsonStr response) with
  | some (Json.obj fs) =>
    match buildFromData false fs with
    | some m => m
    | none => MeetingMinutes.empty
  | _ => MeetingMinutes.empty

/-- `MeetingSummarizer._parse_response` (`src/summarizer.py:204-242`):
direct parse (with `notes` and `_validate_minutes`); a `JSONDecodeError`
falls back to the markdown extractor; any other exception — including the
`ValueError` raised by `_validate_minutes` — is caught by the generic
`except Exception` and yields the empty record. -/
def parseResponse (response : List Char) : MeetingMinutes :=
  match jsonLoads response with
  | none => extractJsonFromMarkdown response
  | some (Json.obj fs) =>
    match (buildFromData true fs).bind validateMinutes with
    | some m => m
    | none => MeetingMinutes.empty
  | some _ => MeetingMinutes.empty

/-- `MeetingSummarizer._format_transcript` (`src/summarizer.py:131-153`):
group consecutive segments of one speaker under a `\n[MM:SS] name:`
header. -/
def formatTranscriptAux : Option (List Char) → List TranscriptSegment → List (List Char)
  | _, [] => []
  | cur, seg :: rest =>
    let body := "  ".toList ++ seg.text
    if cur == some seg.speaker then
      body :: formatTranscriptAux cur rest
    else
      ("\n[".toList ++ formatTimestamp seg.start ++ "] ".toList ++ seg.speaker ++ ":".toList)
        :: body :: formatTranscriptAux (some seg.speaker) rest

def formatTranscript (segs : List TranscriptSegment) : List Char :=
  List.intercalate ("\n".toList) (formatTranscriptAux none segs)

/-- The two vendor clients `_initialize_client` can build. -/
inductive Client where
  | openai : Client
  | anthropic : Client

/-- `MeetingSummarizer._initialize_client` (`src/summarizer.py:63-86`):
a supported provider yields a client iff its constructor succeeds
(`ctorOk`); an unsupported provider, or a constructor exception, leaves
`self.client = None`. -/
def initializeClient (provider : List Char) (ctorOk : Bool) : Option Client :=
  if provider == "openai".toList then (if ctorOk then some Client.openai else none)
  else if provider == "anthropic".toList then (if ctorOk then some Client.anthropic else none)
  else none

/-- The user prompt built by `summarize` (`src/summarizer.py:106-115`). -/
def userPrompt (segs : List TranscriptSegment) (context : Option (List Char)) : List Char :=
  let base := "Meeting Transcript:\n\n".toList ++ formatTranscript segs
  match context with
  | none => base
  | some c => "Meeting Context: ".toList ++ c ++ "\n\n".toList ++ base

/-- `MeetingSummarizer.summarize` (`src/summarizer.py:88-129`), with the
backend call abstracted as the oracle `complete` (`Except.error` = the
call raised).  No client: empty minutes, the backend is never consulted.
A raising call: empty minutes.  Otherwise `_parse_response` handles the
response.  Totality of this function is the model of "no exception
propagates to the caller". -/
def summarize (client : Option Client) (complete : List Char → Except Unit (List Char))
    (segs : List TranscriptSegment) (context : Option (List Char)) : MeetingMinutes :=
  match client with
  | none => MeetingMinutes.empty
  | some _ =>
    match complete (userPrompt segs context) with
    | Except.error _ => MeetingMinutes.empty
    | Except.ok response => parseResponse response

lemma validateSummaryField_take (v : List (List Char)) :
    validateSummaryField v = v.take 8 := by
  rw [validateSummaryField]
  by_cases h : v.length > 8
  · rw [if_pos h]
  · rw [if_neg h, List.take_of_length_le (by omega)]

lemma validateSummaryField_le (v : List (List Char)) :
    (validateSummaryField v).length ≤ 8 := by
  rw [validateSummaryField_take, List.length_take]
  omega

lemma buildFromData_summary_le (b : Bool) (fs : List (List Char × Json))
    (m : MeetingMinutes) (h : buildFromData b fs = some m) :
    m.summary.length ≤ 8 := by
  rw [buildFromData] at h
  repeat' split at h
  all_goals cases h
  all_goals exact validateSummaryField_le _

lemma validateMinutes_summary_le (m m' : MeetingMinutes)
    (h : validateMinutes m = some m') : m'.summary.length ≤ 8 := by
  simp only [validateMinutes] at h
  by_cases hb : m.action_items.any (fun it => it.owner.isEmpty || it.task.isEmpty) = true
  · rw [if_pos hb] at h
    cases h
  · rw [if_neg hb, Option.some.injEq] at h
    rw [← h]
    by_cases hl : m.summary.length > 8
    · simp only [if_pos hl, List.length_take]
      omega
    · simp only [if_neg hl]
      omega

lemma empty_summary_le : MeetingMinutes.empty.summary.length ≤ 8 := by
  simp [MeetingMinutes.empty]

lemma extractJsonFromMarkdown_summary_le (R : List Char) :
    (extractJsonFromMarkdown R).summary.length ≤ 8 := by
  cases hL : jsonLoads (extractJsonStr R) with
  | none => simp only [extractJsonFromMarkdown, hL]; exact empty_summary_le
  | some d =>
    cases d with
    | obj fs =>
      cases hB : buildFromData false fs with
      | none => simp only [extractJsonFromMarkdown, hL, hB]; exact empty_summary_le
      | some m =>
        simp only [extractJsonFromMarkdown, hL, hB]
        exact buildFromData_summary_le false fs m hB
    | null => simp only [extractJsonFromMarkdown, hL]; exact empty_summary_le
    | bool b => simp only [extractJsonFromMarkdown, hL]; exact empty_summary_le
    | num q => simp only [extractJsonFromMarkdown, hL]; exact empty_summary_le
    | str s => simp only [extractJsonFromMarkdown, hL]; exact empty_summary_le
    | arr xs => simp only [extractJsonFromMarkdown, hL]; exact empty_summary_le

lemma parseResponse_summary_le (R : List Char) :
    (parseResponse R).summary.length ≤ 8 := by
  cases hL : jsonLoads R with
  | none =>
    simp only [parseResponse, hL]
    exact extractJsonFromMarkdown_summary_le R
  | some d =>
    cases d with
    | obj fs =>
      cases hB : (buildFromData true fs).bind validateMinutes with
      | none => simp only [parseResponse, hL, hB]; exact empty_summary_le
      | some m =>
        simp only [parseResponse, hL, hB]
        obtain ⟨m0, -, hv⟩ := Option.bind_eq_some.mp hB
        exact validateMinutes_summary_le m0 m hv
    | null => simp only [parseResponse, hL]; exact empty_summary_le
    | bool b => simp only [parseResponse, hL]; exact empty_summary_le
    | num q => simp only [parseResponse, hL]; exact empty_summary_le
    | str s => simp only [parseResponse, hL]; exact empty_summary_le
    | arr xs => simp only [parseResponse, hL]; exact empty_summary_le

/-- C7: `summarize` always returns minutes whose `summary` has at most 8
entries, and the pydantic validator truncates (never rejects): it is
exactly `take 8`. -/
theorem C7_summary_bound :
    (∀ (client : Option Client) (complete : List Char → Except Unit (List Char))
       (segs : List TranscriptSegment) (ctx : Option (List Char)),
       (summarize client complete segs ctx).summary.length ≤ 8) ∧
    (∀ v : List (List Char), validateSummaryField v = v.take 8) := by
  constructor
  · intro client complete segs ctx
    cases client with
    | none => simp only [summarize]; exact empty_summary_le
    | some cl =>
      cases hc : complete (userPrompt segs ctx) with
      | error e => simp only [summarize, hc]; exact empty_summary_le
      | ok R => simp only [summarize, hc]; exact parseResponse_summary_le R
  · exact validateSummaryField_take

/-- C5: when the backend call raises, or when both parse attempts of the
response fail, `summarize` returns the empty `MeetingMinutes`; the
embedding is a total function, so no exception reaches the caller. -/
theorem C5_summarize_failures (cl : Client) (segs : List TranscriptSegment)
    (ctx : Option (List Char)) :
    (∀ complete : List Char → Except Unit (List Char),
      (∀ u, complete u = Except.error ()) →
      summarize (some cl) complete segs ctx = MeetingMinutes.empty) ∧
    (∀ (complete : List Char → Except Unit (List Char)) (R : List Char),
      complete (userPrompt segs ctx) = Except.ok R →
      jsonLoads R = none → jsonLoads (extractJsonStr R) = none →
      summarize (some cl) complete segs ctx = MeetingMinutes.empty) := by
  constructor
  · intro complete h
    simp only [summarize, h (userPrompt segs ctx)]
  · intro complete R hok h1 h2
    simp only [summarize, hok, parseResponse, h1, extractJsonFromMarkdown, h2]

theorem C5_summarize_failures_witness :
    jsonLoads ("nope".toList) = none ∧
    jsonLoads (extractJsonStr ("nope".toList)) = none ∧
    summarize (some Client.openai) (fun _ => Except.error ()) [] none
      = MeetingMinutes.empty ∧
    summarize (some Client.openai) (fun _ => Except.ok ("nope".toList)) [] none
      = MeetingMinutes.empty :=
  ⟨rfl, rfl,
   (C5_summarize_failures Client.openai [] none).1 _ (fun _ => rfl),
   (C5_summarize_failures Client.openai [] none).2 _ ("nope".toList) rfl rfl rfl⟩

/-- C10: when `_initialize_client` produced no client, `summarize` returns
the empty record for every oracle (so the backend is never consulted), and
the result coincides with that of a backend whose call raises. -/
theorem C10_no_client (provider : List Char) (ctorOk : Bool)
    (h : initializeClient provider ctorOk = none)
    (complete : List Char → Except Unit (List Char))
    (segs : List TranscriptSegment) (ctx : Option (List Char)) :
    summarize (initializeClient provider ctorOk) complete segs ctx
      = MeetingMinutes.empty ∧
    summarize (initializeClient provider ctorOk) complete segs ctx
      = summarize (some Client.openai) (fun _ => Except.error ()) segs ctx := by
  rw [h]
  exact ⟨rfl, rfl⟩

/-- An object field that is missing or bound to the empty string — the
"owner or task missing or empty" condition of the claim. -/
def fieldBadP (fsi : List (List Char × Json)) (key : List Char) : Prop :=
  objGet fsi key = none ∨ objGet fsi key = some (Json.str [])

/-- An action-item object whose `owner` or `task` is missing or empty. -/
def itemBadP (j : Json) : Prop :=
  ∃ fsi, j = Json.obj fsi ∧
    (fieldBadP fsi ("owner".toList) ∨ fieldBadP fsi ("task".toList))

lemma buildActionItems_none_of_mem (js : List Json) (j : Json) (hj : j ∈ js)
    (h : mkActionItem j = none) : buildActionItems js = none := by
  induction js with
  | nil => cases hj
  | cons a as ih =>
    rcases List.mem_cons.mp hj with rfl | hmem
    · simp only [buildActionItems, h]
    · cases hA : mkActionItem a with
      | none => simp only [buildActionItems, hA]
      | some it => simp only [buildActionItems, hA, ih hmem]

lemma buildActionItems_mem (js : List Json) (out : List ActionItem) (j : Json)
    (it : ActionItem) (h : buildActionItems js = some out) (hj : j ∈ js)
    (hit : mkActionItem j = some it) : it ∈ out := by
  induction js generalizing out with
  | nil => cases hj
  | cons a as ih =>
    simp only [buildActionItems] at h
    cases hA : mkActionItem a with
    | none => rw [hA] at h; simp at h
    | some x =>
      rw [hA] at h
      cases hB : buildActionItems as with
      | none => rw [hB] at h; simp at h
      | some rest =>
        rw [hB] at h
        simp only [Option.some.injEq] at h
        rcases List.mem_cons.mp hj with rfl | hmem
        · rw [hit, Option.some.injEq] at hA
          rw [← h, hA]
          exact List.mem_cons_self _ _
        · rw [← h]
          exact List.mem_cons_of_mem _ (ih rest hB hmem)

lemma itemBad_effect (j : Json) (hbad : itemBadP j) :
    mkActionItem j = none ∨
    ∃ it, mkActionItem j = some it ∧ (it.owner.isEmpty || it.task.isEmpty) = true := by
  obtain ⟨fsi, rfl, hfield⟩ := hbad
  cases hM : mkActionItem (Json.obj fsi) with
  | none => exact Or.inl rfl
  | some it =>
    refine Or.inr ⟨it, rfl, ?_⟩
    simp only [mkActionItem] at hM
    rcases hfield with h | h
    · rcases h with h | h
      · simp only [h, Option.none_bind] at hM
        repeat' split at hM
        all_goals cases hM
        all_goals simp_all
      · simp only [h, Option.some_bind, asStr] at hM
        repeat' split at hM
        all_goals cases hM
        all_goals simp_all
    · rcases h with h | h
      · simp only [h, Option.none_bind] at hM
        repeat' split at hM
        all_goals cases hM
        all_goals simp_all
      · simp only [h, Option.some_bind, asStr] at hM
        repeat' split at hM
        all_goals cases hM
        all_goals simp_all

/-- C4 (amended): a response that parses as JSON but contains an action
item with missing or empty `owner`/`task` makes `_parse_response` return
the **empty** `MeetingMinutes` — the `ValueError` (or pydantic error) is
caught by the generic `except Exception`, so the caller sees the same
empty record as after a transport failure, not an escalated validation
error. -/
theorem C4_validation_swallowed (R : List Char) (fs : List (List Char × Json))
    (xs : List Json) (hload : jsonLoads R = some (Json.obj fs))
    (hai : objGet fs ("action_items".toList) = some (Json.arr xs))
    (hbad : ∃ j ∈ xs, itemBadP j) :
    parseResponse R = MeetingMinutes.empty ∧
    ∀ (cl : Client) (complete : List Char → Except Unit (List Char))
      (segs : List TranscriptSegment) (ctx : Option (List Char)),
      complete (userPrompt segs ctx) = Except.ok R →
      summarize (some cl) complete segs ctx = MeetingMinutes.empty := by
  have hmain : parseResponse R = MeetingMinutes.empty := by
    obtain ⟨j, hj, hbadj⟩ := hbad
    have hnone : (buildFromData true fs).bind validateMinutes = none := by
      rcases itemBad_effect j hbadj with hn | ⟨it, hit, hbe⟩
      · have hB : buildActionItems xs = none := buildActionItems_none_of_mem xs j hj hn
        have hbf : buildFromData true fs = none := by
          simp only [buildFromData, getItemsField, hai, hB]
        rw [hbf, Option.none_bind]
      · cases hBF : buildFromData true fs with
        | none => rw [Option.none_bind]
        | some m =>
          rw [Option.some_bind]
          have hmem : it ∈ m.action_items := by
            simp only [buildFromData, getItemsField, hai] at hBF
            cases hB : buildActionItems xs with
            | none => rw [hB] at hBF; simp at hBF
            | some items =>
              rw [hB] at hBF
              have hitmem : it ∈ items := buildActionItems_mem xs items j it hB hj hit
              repeat' split at hBF
              all_goals cases hBF
              all_goals simp_all
          have hcond : m.action_items.any
              (fun a => a.owner.isEmpty || a.task.isEmpty) = true :=
            List.any_eq_true.mpr ⟨it, hmem, hbe⟩
          simp only [validateMinutes]
          rw [if_pos hcond]
    simp only [parseResponse, hload, hnone]
  refine ⟨hmain, ?_⟩
  intro cl complete segs ctx hok
  simp only [summarize, hok, hmain]

/-- The action-item object `{"owner": "Alice"}` — `task` missing. -/
def badItemJson : Json := Json.obj [("owner".toList, Json.str ("Alice".toList))]

/-- What `json.loads` makes of `badResponse`. -/
def badData : List (List Char × Json) :=
  [("summary".toList, Json.arr []), ("action_items".toList, Json.arr [badItemJson])]

/-- A syntactically valid backend response whose action item lacks `task`. -/
def badResponse : List Char :=
  "\x7b\"summary\": [], \"action_items\": [\x7b\"owner\": \"Alice\"\x7d]\x7d".toList

/-- C4 (counterexample to the claim as stated): this response parses as
JSON and contains an action item without `task`, yet extraction does not
raise anything visible to the caller — it returns a minutes record (the
empty one), indistinguishable from a transport failure. -/
theorem C4_counterexample :
    jsonLoads badResponse = some (Json.obj badData) ∧
    objGet badData ("action_items".toList) = some (Json.arr [badItemJson]) ∧
    objGet [("owner".toList, Json.str ("Alice".toList))] ("task".toList) = none ∧
    parseResponse badResponse = MeetingMinutes.empty ∧
    summarize (some Client.openai) (fun _ => Except.ok badResponse) [] none
      = MeetingMinutes.empty :=
  ⟨rfl, rfl, rfl, rfl, rfl⟩

theorem C4_validation_swallowed_witness :
    jsonLoads badResponse = some (Json.obj badData) ∧
    objGet badData ("action_items".toList) = some (Json.arr [badItemJson]) ∧
    (parseResponse badResponse = MeetingMinutes.empty ∧
     ∀ (cl : Client) (complete : List Char → Except Unit (List Char))
       (segs : List TranscriptSegment) (ctx : Option (List Char)),
       complete (userPrompt segs ctx) = Except.ok badResponse →
       summarize (some cl) complete segs ctx = MeetingMinutes.empty) :=
  ⟨rfl, rfl,
   C4_validation_swallowed badResponse badData [badItemJson] rfl rfl
     ⟨badItemJson, List.mem_cons_self _ _,
      ⟨[("owner".toList, Json.str ("Alice".toList))], rfl, Or.inr (Or.inl rfl)⟩⟩⟩

/-- A backend response consisting of `J` wrapped in a fenced code block
tagged `json`. -/
def wrapJson (J : List Char) : List Char :=
  "```json\n".toList ++ J ++ "\n```".toList

lemma parseValue_grave (fuel : ℕ) (s : List Char) :
    parseValue fuel ('`' :: s) = none := by
  cases fuel with
  | zero => rfl
  | succ f => rfl

lemma jsonLoads_grave (s : List Char) : jsonLoads ('`' :: s) = none := by
  rw [jsonLoads, parseValue_grave]

lemma jsonLoads_wrap_none (J : List Char) : jsonLoads (wrapJson J) = none := by
  have h : wrapJson J = '`' :: ("``json\n".toList ++ J ++ "\n```".toList) := rfl
  rw [h, jsonLoads_grave]

lemma jsonLoads_nil : jsonLoads ([] : List Char) = none := rfl

lemma findSub_append_marker (J : List Char)
    (hnb : findSub J ('`' :: '`' :: '`' :: []) = none) :
    findSub (J ++ ('\n' :: '`' :: '`' :: '`' :: [])) ('`' :: '`' :: '`' :: [])
      = some (J.length + 1) := by
  induction J with
  | nil => rfl
  | cons c J ih =>
    rw [findSub] at hnb
    by_cases hp : ('`' :: '`' :: '`' :: []).isPrefixOf (c :: J) = true
    · rw [if_pos hp] at hnb
      cases hnb
    · rw [if_neg hp, Option.map_eq_none'] at hnb
      have hih := ih hnb
      have hp2 : ('`' :: '`' :: '`' :: []).isPrefixOf
          (c :: (J ++ ('\n' :: '`' :: '`' :: '`' :: []))) = false := by
        cases J with
        | nil => simp [List.isPrefixOf]
        | cons x J' =>
          cases J' with
          | nil => simp [List.isPrefixOf]
          | cons y J'' =>
            rw [Bool.eq_false_iff]
            intro hb
            apply hp
            simp only [List.cons_append, List.isPrefixOf, Bool.and_eq_true] at hb ⊢
            exact ⟨hb.1, hb.2.1, hb.2.2⟩
      rw [List.cons_append, findSub, hp2]
      simp only [Bool.false_eq_true, if_false, hih, Option.map_some, List.length_cons]
      rfl

/-- Decidable check that every action item the response carries builds
successfully with non-empty `owner` and `task` (vacuously true when the
field is absent or when building fails for other reasons). -/
def itemsOkB (fs : List (List Char × Json)) : Bool :=
  match getItemsField fs with
  | none => true
  | some itemsJ =>
    match buildActionItems itemsJ with
    | none => true
    | some items => items.all (fun it => !(it.owner.isEmpty) && !(it.task.isEmpty))

lemma findSub_wrap_json_tag (J : List Char) :
    findSub (wrapJson J) ("```json".toList) = some 0 := rfl

lemma pyFind_wrap_json_tag (J : List Char) :
    pyFind (wrapJson J) ("```json".toList) 0 = 0 := by
  rw [pyFind, List.drop_zero, findSub_wrap_json_tag]
  rfl

lemma findSub_wrap_close (J : List Char)
    (hnb : findSub J ("```".toList) = none) :
    findSub ((wrapJson J).drop 7) ("```".toList) = some (J.length + 2) := by
  have hdrop : (wrapJson J).drop 7 = '\n' :: (J ++ ('\n' :: '`' :: '`' :: '`' :: [])) := by
    rw [wrapJson]
    rfl
  rw [hdrop]
  have hp : ('`' :: '`' :: '`' :: []).isPrefixOf
      ('\n' :: (J ++ ('\n' :: '`' :: '`' :: '`' :: []))) = false := by
    simp [List.isPrefixOf]
  have hmark := findSub_append_marker J hnb
  rw [findSub]
  rw [show ("```".toList) = ('`' :: '`' :: '`' :: []) from rfl, hp]
  simp only [Bool.false_eq_true, if_false, hmark, Option.map_some]
  rfl

lemma pyFind_wrap_close (J : List Char)
    (hnb : findSub J ("```".toList) = none) :
    pyFind (wrapJson J) ("```".toList) 7 = (J.length : ℤ) + 9 := by
  rw [pyFind, findSub_wrap_close J hnb]
  push_cast
  ring

lemma length_wrapJson (J : List Char) : (wrapJson J).length = J.length + 12 := by
  rw [wrapJson]
  simp only [List.length_append]
  rw [show ("```json\n".toList).length = 8 from rfl,
    show ("\n```".toList).length = 4 from rfl]
  omega

lemma pySlice_wrap (J : List Char) :
    pySlice (wrapJson J) 7 ((J.length : ℤ) + 9) = '\n' :: (J ++ ['\n']) := by
  rw [pySlice, length_wrapJson]
  have hc1 : pyClamp (J.length + 12) 7 = 7 := by
    rw [pyClamp, if_neg (by norm_num)]
    rw [show ((7 : ℤ)).toNat = 7 from rfl]
    omega
  have hc2 : pyClamp (J.length + 12) ((J.length : ℤ) + 9) = J.length + 9 := by
    rw [pyClamp, if_neg (by omega)]
    have ht : ((J.length : ℤ) + 9).toNat = J.length + 9 := by omega
    rw [ht]
    omega
  rw [hc1, hc2]
  have hassoc : wrapJson J = "```json\n".toList ++ (J ++ "\n```".toList) := by
    rw [wrapJson, List.append_assoc]
  rw [hassoc, List.take_append_eq_append_take]
  rw [List.take_of_length_le (by rw [show ("```json\n".toList).length = 8 from rfl]; omega)]
  rw [show ("```json\n".toList).length = 8 from rfl]
  have h1 : J.length + 9 - 8 = J.length + 1 := by omega
  rw [h1, List.take_append_eq_append_take, List.take_of_length_le (by omega)]
  have h2 : J.length + 1 - J.length = 1 := by omega
  rw [h2, show (("\n```".toList).take 1) = ['\n'] from rfl]
  rw [List.drop_append_eq_append_drop]
  rw [show (("```json\n".toList).drop 7) = ['\n'] from rfl]
  rw [show (7 - ("```json\n".toList).length) = 0 from rfl, List.drop_zero]
  rfl

lemma dropWhile_eq_self_of_strip (J : List Char) (h : stripList J = J) :
    J.dropWhile pyWs = J := by
  have h1 : (J.dropWhile pyWs).length ≤ J.length := (List.dropWhile_suffix pyWs).length_le
  have h2 : (stripList J).length ≤ (J.dropWhile pyWs).length := by
    rw [stripList, List.length_reverse]
    calc ((J.dropWhile pyWs).reverse.dropWhile pyWs).length
        ≤ (J.dropWhile pyWs).reverse.length := (List.dropWhile_suffix pyWs).length_le
      _ = (J.dropWhile pyWs).length := List.length_reverse _
  rw [h] at h2
  exact (List.dropWhile_suffix pyWs).sublist.eq_of_length (by omega)

lemma rev_dropWhile_eq_self_of_strip (J : List Char) (h : stripList J = J) :
    J.reverse.dropWhile pyWs = J.reverse := by
  have hX := dropWhile_eq_self_of_strip J h
  rw [stripList, hX] at h
  have h2 := congrArg List.reverse h
  rwa [List.reverse_reverse] at h2

lemma strip_wrap (J : List Char) (h : stripList J = J) (hne : J ≠ []) :
    stripList ('\n' :: (J ++ ['\n'])) = J := by
  have hX := dropWhile_eq_self_of_strip J h
  have hR := rev_dropWhile_eq_self_of_strip J h
  obtain ⟨c, J', rfl⟩ : ∃ c J', J = c :: J' := by
    cases J with
    | nil => exact absurd rfl hne
    | cons c J' => exact ⟨c, J', rfl⟩
  have hc : pyWs c = false := by
    by_cases hcb : pyWs c = true
    · rw [List.dropWhile_cons, if_pos hcb] at hX
      have hl : (List.dropWhile pyWs J').length ≤ J'.length :=
        (List.dropWhile_suffix pyWs).length_le
      have hlen := congrArg List.length hX
      simp only [List.length_cons] at hlen
      omega
    · exact Bool.eq_false_iff.mpr hcb
  rw [stripList]
  have hd : (('\n' :: ((c :: J') ++ ['\n'])).dropWhile pyWs) = (c :: J') ++ ['\n'] := by
    rw [List.dropWhile_cons, if_pos (by rfl : pyWs '\n' = true)]
    rw [List.cons_append, List.dropWhile_cons, if_neg (by simp [hc])]
  rw [hd, List.reverse_append]
  rw [show (['\n'] : List Char).reverse = ['\n'] from rfl]
  rw [show (['\n'] : List Char) ++ (c :: J').reverse = '\n' :: (c :: J').reverse from rfl]
  rw [List.dropWhile_cons, if_pos (by rfl : pyWs '\n' = true), hR, List.reverse_reverse]

lemma extract_wrap (J : List Char) (hnb : findSub J ("```".toList) = none)
    (hstrip : stripList J = J) (hne : J ≠ []) :
    extractJsonStr (wrapJson J) = J := by
  rw [extractJsonStr]
  have hcon : pyContains (wrapJson J) ("```json".toList) = true := by
    rw [pyContains, findSub_wrap_json_tag]
    rfl
  rw [if_pos hcon, pyFind_wrap_json_tag]
  rw [show ((0 : ℤ) + 7) = 7 from rfl, show ((7 : ℤ)).toNat = 7 from rfl]
  rw [pyFind_wrap_close J hnb, pySlice_wrap]
  exact strip_wrap J hstrip hne

lemma buildFromData_notes_split (fs : List (List Char × Json)) (nv : Option (List Char))
    (hn : getNotesField fs = some nv) :
    buildFromData true fs
      = (buildFromData false fs).map (fun m => { m with notes := nv }) := by
  cases hJ : getItemsField fs with
  | none => simp only [buildFromData, hJ]; rfl
  | some itemsJ =>
    cases hIt : buildActionItems itemsJ with
    | none => simp only [buildFromData, hJ, hIt]; rfl
    | some items =>
      cases hSu : getStrListField fs ("summary".toList) with
      | none => simp only [buildFromData, hJ, hIt, hSu]; rfl
      | some su =>
        cases hDe : getStrListField fs ("decisions".toList) with
        | none => simp only [buildFromData, hJ, hIt, hSu, hDe]; rfl
        | some de =>
          cases hRi : getStrListField fs ("risks".toList) with
          | none => simp only [buildFromData, hJ, hIt, hSu, hDe, hRi]; rfl
          | some ri =>
            simp only [buildFromData, hJ, hIt, hSu, hDe, hRi, if_pos rfl, hn,
              Option.map_some]
            rfl

lemma buildFromData_false_notes (fs : List (List Char × Json)) (m : MeetingMinutes)
    (h : buildFromData false fs = some m) : m.notes = none := by
  rw [buildFromData] at h
  repeat' split at h
  all_goals cases h
  all_goals simp_all

lemma validateMinutes_of_ok (m : MeetingMinutes) (h8 : m.summary.length ≤ 8)
    (hany : m.action_items.any (fun it => it.owner.isEmpty || it.task.isEmpty) = false) :
    validateMinutes m = some m := by
  have hgt : ¬ (m.summary.length > 8) := by omega
  have h1 : ({ m with summary := if m.summary.length > 8 then m.summary.take 8 else m.summary }
      : MeetingMinutes) = m := by
    rw [if_neg hgt]
  simp only [validateMinutes, h1, hany]
  simp

lemma validateMinutes_ok (fs : List (List Char × Json)) (m : MeetingMinutes)
    (hb : buildFromData true fs = some m) (hitems : itemsOkB fs = true) :
    validateMinutes m = some m := by
  cases hJ : getItemsField fs with
  | none =>
    simp only [buildFromData, hJ] at hb
    exact Option.noConfusion hb
  | some itemsJ =>
    cases hIt : buildActionItems itemsJ with
    | none =>
      simp only [buildFromData, hJ, hIt] at hb
      exact Option.noConfusion hb
    | some items =>
      cases hSu : getStrListField fs ("summary".toList) with
      | none =>
        simp only [buildFromData, hJ, hIt, hSu] at hb
        exact Option.noConfusion hb
      | some su =>
        cases hDe : getStrListField fs ("decisions".toList) with
        | none =>
          simp only [buildFromData, hJ, hIt, hSu, hDe] at hb
          exact Option.noConfusion hb
        | some de =>
          cases hRi : getStrListField fs ("risks".toList) with
          | none =>
            simp only [buildFromData, hJ, hIt, hSu, hDe, hRi] at hb
            exact Option.noConfusion hb
          | some ri =>
            cases hNo : getNotesField fs with
            | none =>
              simp only [buildFromData, hJ, hIt, hSu, hDe, hRi, if_pos rfl, if_true, hNo] at hb
              exact Option.noConfusion hb
            | some no =>
              simp only [buildFromData, hJ, hIt, hSu, hDe, hRi, if_pos rfl, if_true, hNo,
                Option.some.injEq] at hb
              have hall : items.all
                  (fun it => !(it.owner.isEmpty) && !(it.task.isEmpty)) = true := by
                simp only [itemsOkB, hJ, hIt] at hitems
                exact hitems
              have hany : items.any
                  (fun it => it.owner.isEmpty || it.task.isEmpty) = false := by
                rw [List.any_eq_false]
                intro it hit
                have hgood := List.all_eq_true.mp hall it hit
                simp only [Bool.and_eq_true, Bool.not_eq_true'] at hgood
                simp [hgood.1, hgood.2]
              rw [← hb]
              exact validateMinutes_of_ok ⟨validateSummaryField su, de, items, ri, no⟩
                (validateSummaryField_le su) hany

/-- C6 (amended): for a JSON text `J` with no triple-backtick run and no
leading/trailing whitespace (so the fenced-block slicing recovers `J`
exactly), parsing to an object with a well-typed `notes` field and whose
action items all build with non-empty `owner` and `task`, extraction of
the fenced-wrapped response equals extraction of the bare response —
**except** that the fenced path always leaves `notes` empty (it never
passes `notes` and skips `_validate_minutes`). -/
theorem C6_fenced_vs_bare (J : List Char) (fs : List (List Char × Json))
    (hload : jsonLoads J = some (Json.obj fs))
    (hnb : findSub J ("```".toList) = none)
    (hstrip : stripList J = J)
    (hnotes : (getNotesField fs).isSome = true)
    (hitems : itemsOkB fs = true) :
    parseResponse (wrapJson J) = { parseResponse J with notes := none } := by
  have hne : J ≠ [] := by
    rintro rfl
    rw [jsonLoads_nil] at hload
    exact Option.noConfusion hload
  obtain ⟨nv, hnv⟩ := Option.isSome_iff_exists.mp hnotes
  have hwl : jsonLoads (wrapJson J) = none := jsonLoads_wrap_none J
  have hex : extractJsonStr (wrapJson J) = J := extract_wrap J hnb hstrip hne
  have hrel := buildFromData_notes_split fs nv hnv
  simp only [parseResponse, hwl, extractJsonFromMarkdown, hex, hload]
  cases hbf : buildFromData false fs with
  | none =>
    have hbt : buildFromData true fs = none := by rw [hrel, hbf]; rfl
    simp only [hbf, hbt, Option.none_bind]
    rfl
  | some m0 =>
    have hbt : buildFromData true fs = some { m0 with notes := nv } := by
      rw [hrel, hbf]
      rfl
    have hval : validateMinutes { m0 with notes := nv } = some { m0 with notes := nv } :=
      validateMinutes_ok fs _ hbt hitems
    have hm0 : m0.notes = none := buildFromData_false_notes fs m0 hbf
    simp only [hbf, hbt, Option.some_bind, hval]
    obtain ⟨s, d, a, r, no⟩ := m0
    have hno : no = none := hm0
    rw [hno]

/-- The JSON object `{"notes": "n"}`. -/
def notesJson : List Char := "\x7b\"notes\": \"n\"\x7d".toList

/-- C6 (counterexample to the claim as stated): on the JSON text
`{"notes": "n"}`, the fenced-wrapped response and the bare response give
**different** `MeetingMinutes`: the direct path stores `notes`, the
markdown recovery path never does. -/
theorem C6_counterexample :
    (jsonLoads notesJson).isSome = true ∧
    parseResponse notesJson
      = ⟨[], [], [], [], some ("n".toList)⟩ ∧
    parseResponse (wrapJson notesJson)
      = ⟨[], [], [], [], none⟩ ∧
    parseResponse (wrapJson notesJson) ≠ parseResponse notesJson := by
  refine ⟨rfl, rfl, rfl, ?_⟩
  intro h
  rw [show parseResponse (wrapJson notesJson) = ⟨[], [], [], [], none⟩ from rfl,
    show parseResponse notesJson = ⟨[], [], [], [], some ("n".toList)⟩ from rfl] at h
  exact Option.noConfusion (congrArg MeetingMinutes.notes h)

/-- The JSON object `{"summary": ["a"]}` used as the C6 witness input. -/
def plainJson : List Char := "\x7b\"summary\": [\"a\"]\x7d".toList

/-- The member list `json.loads` produces for `plainJson`. -/
def plainData : List (List Char × Json) :=
  [("summary".toList, Json.arr [Json.str ("a".toList)])]

theorem C6_fenced_vs_bare_witness :
    jsonLoads plainJson = some (Json.obj plainData) ∧
    findSub plainJson ("```".toList) = none ∧
    stripList plainJson = plainJson ∧
    (getNotesField plainData).isSome = true ∧
    itemsOkB plainData = true ∧
    parseResponse (wrapJson plainJson) = { parseResponse plainJson with notes := none } :=
  ⟨rfl, rfl, rfl, rfl, rfl,
   C6_fenced_vs_bare plainJson plainData rfl rfl rfl rfl rfl⟩

theorem C10_no_client_witness :
    initializeClient ("local".toList) true = none ∧
    (summarize (initializeClient ("local".toList) true)
        (fun _ => Except.ok ("x".toList)) [] none = MeetingMinutes.empty ∧
     summarize (initializeClient ("local".toList) true)
        (fun _ => Except.ok ("x".toList)) [] none
      = summarize (some Client.openai) (fun _ => Except.error ()) [] none) :=
  ⟨rfl, C10_no_client ("local".toList) true rfl _ [] none⟩

end MMG
